import Mathlib

/-!
Verification of the blog-index tag-filter component
(`src/routes/blog/+page.svelte` style component, file `part_006`).

JavaScript strings are modelled as lists of characters (`Str`), posts as
records with an optional tag list (the TS field is `tags?: string[]`), and
the mutable bindings of the Svelte component as fields of `ComponentState`.
Reactive blocks are modelled as explicit recomputation functions applied
after each mutation, and `setTimeout` callbacks as a list of pending due
times fired by an explicit scheduler step.
-/

namespace BlogIndex

/-- JS strings, modelled as lists of characters. -/
abbrev Str := List Char

/-- Embed a Lean string literal as a JS string. -/
def strOf (s : String) : Str := s.toList

/-- JS `String.prototype.trim`: strip leading and trailing whitespace. -/
def trimStr (s : Str) : Str :=
  ((s.dropWhile Char.isWhitespace).reverse.dropWhile Char.isWhitespace).reverse

/-- JS `String.prototype.toLowerCase` (character-wise lowering). -/
def lowerStr (s : Str) : Str := s.map Char.toLower

/-- JS `hay.includes(needle)`: `needle` occurs as a contiguous substring of `hay`. -/
def includesStr : Str → Str → Bool
  | [], needle => needle.isEmpty
  | c :: rest, needle => needle.isPrefixOf (c :: rest) || includesStr rest needle

/-- A blog post record (the fields the blog index page reads); `tags` is
optional, matching the TS declaration `tags?: string[]`. -/
structure Post where
  title : Str
  slug : Str
  excerpt : Str
  coverImage : Str
  readingTime : Str
  tags : Option (List Str)
deriving DecidableEq

/-- Model of `post.tags?.includes(tag)`: optional chaining yields a falsy value when
`tags` is `undefined`. -/
def postHasTag (p : Post) (tag : Str) : Bool :=
  match p.tags with
  | none => false
  | some ts => ts.contains tag

/-- The reactive block computing `filteredPosts` from `selectedTags` and
`posts`: identity when no tag is selected, otherwise
`posts.filter(post => selectedTags.every(tag => post.tags?.includes(tag)))`. -/
def filteredPosts (selectedTags : List Str) (posts : List Post) : List Post :=
  if selectedTags.length = 0 then posts
  else posts.filter (fun post => selectedTags.all (fun tag => postHasTag post tag))

/-- The tag set of a post as the spec reads it; empty when the field is absent. -/
def tagSet (p : Post) : List Str := p.tags.getD []

/-- Spec reading of FilteredPosts: the posts whose tag set is a superset of
the selected tags, kept in their original relative order. -/
def filteredPostsSpec (selectedTags : List Str) (posts : List Post) : List Post :=
  posts.filter (fun post => decide (∀ t ∈ selectedTags, t ∈ tagSet post))

lemma postHasTag_eq_mem (p : Post) (t : Str) :
    postHasTag p t = decide (t ∈ tagSet p) := by
  cases h : p.tags <;> simp [postHasTag, tagSet, h]

lemma all_postHasTag_eq (sel : List Str) (p : Post) :
    (sel.all (fun tag => postHasTag p tag)) = decide (∀ t ∈ sel, t ∈ tagSet p) := by
  rw [Bool.eq_iff_iff]
  simp [List.all_eq_true, postHasTag_eq_mem]

/-- Claim C1: with no selected tag, `filteredPosts` is the full post list in
original order; otherwise it is exactly the posts whose tag set contains
every selected tag, in their original relative order (stated as equality
with the order-preserving filter by the superset predicate). -/
theorem claim_C1 :
    (∀ posts : List Post, filteredPosts [] posts = posts) ∧
    (∀ (sel : List Str) (posts : List Post),
        filteredPosts sel posts = filteredPostsSpec sel posts) := by
  constructor
  · intro posts
    simp [filteredPosts]
  · intro sel posts
    by_cases h : sel.length = 0
    · obtain rfl : sel = [] := List.length_eq_zero.mp h
      simp [filteredPosts, filteredPostsSpec]
    · rw [filteredPosts, if_neg h, filteredPostsSpec]
      exact List.filter_congr (fun p _ => all_postHasTag_eq sel p)

/-- Claim C10: a post whose `tags` field is absent is included in
`filteredPosts` when no tag is selected, and excluded whenever any tag is
selected; the mismatch is silent (the function only returns a list, it
signals nothing). -/
theorem claim_C10 (posts : List Post) (p : Post) (sel : List Str)
    (htags : p.tags = none) (hmem : p ∈ posts) (hsel : sel ≠ []) :
    p ∈ filteredPosts [] posts ∧ p ∉ filteredPosts sel posts := by
  constructor
  · simpa [filteredPosts] using hmem
  · intro hc
    have hlen : ¬ sel.length = 0 := by simpa [List.length_eq_zero] using hsel
    rw [filteredPosts, if_neg hlen] at hc
    have hall : sel.all (fun tag => postHasTag p tag) = true :=
      (List.mem_filter.mp hc).2
    obtain ⟨t, ht⟩ := List.exists_mem_of_ne_nil sel hsel
    have := (List.all_eq_true.mp hall) t ht
    simp [postHasTag, htags] at this

/-- A post record without a `tags` field. -/
def orphanPost : Post :=
  { title := strOf "untitled", slug := strOf "untitled", excerpt := [],
    coverImage := [], readingTime := [], tags := none }

/-- Witness for C10 at a concrete input. -/
theorem claim_C10_witness :
    orphanPost ∈ filteredPosts [] [orphanPost] ∧
      orphanPost ∉ filteredPosts [strOf "a"] [orphanPost] :=
  claim_C10 [orphanPost] orphanPost [strOf "a"] (by rfl) (by simp) (by simp)

/-- Serialization of the selected tags used by `updateURL`: `selectedTags.join(',')`. -/
def joinTags (tags : List Str) : Str := List.intercalate [','] tags

/-- The URL-initialization parse of the `tags` query parameter:
`urlTags.split(',').filter(tag => tag.trim())` — split on commas, keep the
pieces verbatim but drop those whose trim is empty (falsy). -/
def parseTags (s : Str) : List Str :=
  (s.splitOn ',').filter (fun t => !(trimStr t).isEmpty)

/-- Counterexample to C5 as stated: the single whitespace-only tag name
`" "` contains no comma, yet the parse of its serialization is `[]`, not
`[" "]` — blank entries are discarded by the parse. -/
theorem claim_C5_counterexample :
    (',' ∉ ([' '] : Str)) ∧ parseTags (joinTags [[' ']]) ≠ [[' ']] := by
  decide

/-- Claim C5 (amended): for every tag list whose names contain no comma and
are not blank (whitespace-only), parsing the comma-joined serialization
reproduces exactly the same list, in membership and order. -/
theorem claim_C5_amended (tags : List Str)
    (h : ∀ t ∈ tags, ',' ∉ t ∧ ¬ (trimStr t).isEmpty) :
    parseTags (joinTags tags) = tags := by
  rcases tags with _ | ⟨a, l⟩
  · decide
  · have hsplit : (joinTags (a :: l)).splitOn ',' = a :: l := by
      rw [joinTags]
      exact List.splitOn_intercalate (a :: l) ',' (fun t ht => (h t ht).1) (by simp)
    rw [parseTags, hsplit]
    exact List.filter_eq_self.mpr (fun t ht => by simpa using (h t ht).2)

/-- Witness for the amended C5 at a concrete comma-free, non-blank tag list. -/
theorem claim_C5_amended_witness :
    parseTags (joinTags [strOf "Python", strOf "System Design"]) =
      [strOf "Python", strOf "System Design"] :=
  claim_C5_amended [strOf "Python", strOf "System Design"] (by decide)

/-- The hard-coded featured tags of the component. -/
def featuredTags : List Str := [strOf "Python", strOf "System Design", strOf "DIY"]

/-- The search reactive block: on a non-blank query it filters the tag index
by case-insensitive substring match, excludes featured tags, keeps the first
10 matches and shows the panel iff some match survives; on a blank query it
empties the results and hides the panel. -/
def searchBlock (allTags featured : List Str) (query : Str) : List Str × Bool :=
  if !(trimStr query).isEmpty then
    let results := (allTags.filter (fun tag =>
      includesStr (lowerStr tag) (lowerStr query) && !(featured.contains tag))).take 10
    (results, decide (results.length > 0))
  else ([], false)

/-- Spec reading of SearchResults: the tags of the index whose text contains
the query case-insensitively, minus the featured tags, in index order,
truncated to the first 10. -/
def searchResultsSpec (allTags featured : List Str) (query : Str) : List Str :=
  ((allTags.filter (fun tag => includesStr (lowerStr tag) (lowerStr query))).filter
    (fun tag => !(featured.contains tag))).take 10

lemma search_filter_comm (allTags featured : List Str) (query : Str) :
    allTags.filter (fun tag =>
        includesStr (lowerStr tag) (lowerStr query) && !(featured.contains tag)) =
      (allTags.filter (fun tag => includesStr (lowerStr tag) (lowerStr query))).filter
        (fun tag => !(featured.contains tag)) := by
  rw [List.filter_filter]
  exact List.filter_congr (fun a _ => by rw [Bool.and_comm])

/-- Claim C6: on a non-blank query the search block returns exactly the
result list of the spec (panel shown iff non-empty); a blank query yields empty
results and a hidden panel; and on the concrete scenario with tag index
["DIY","Golang","Python","System Design"] and the featured tags, the query
"go" yields exactly ["Golang"]. -/
theorem claim_C6 :
    (∀ (allTags featured : List Str) (query : Str), ¬ (trimStr query).isEmpty = true →
        searchBlock allTags featured query =
          (searchResultsSpec allTags featured query,
            decide ((searchResultsSpec allTags featured query).length > 0))) ∧
    (∀ (allTags featured : List Str) (query : Str), (trimStr query).isEmpty = true →
        searchBlock allTags featured query = ([], false)) ∧
    searchBlock [strOf "DIY", strOf "Golang", strOf "Python", strOf "System Design"]
        featuredTags (strOf "go") = ([strOf "Golang"], true) := by
  refine ⟨?_, ?_, by decide⟩
  · intro allTags featured query h
    have hb : (trimStr query).isEmpty = false := by
      cases hh : (trimStr query).isEmpty
      · rfl
      · exact absurd hh h
    rw [searchBlock, searchResultsSpec]
    simp only [hb, Bool.not_false, if_true]
    rw [search_filter_comm]
  · intro allTags featured query h
    rw [searchBlock]
    simp [h]

/-- Witness for the quantified parts of C6 at concrete inputs. -/
theorem claim_C6_witness :
    searchBlock [strOf "Rust"] [] (strOf "us") =
      (searchResultsSpec [strOf "Rust"] [] (strOf "us"),
        decide ((searchResultsSpec [strOf "Rust"] [] (strOf "us")).length > 0)) ∧
    searchBlock [strOf "Rust"] [] (strOf " ") = ([], false) :=
  ⟨claim_C6.1 [strOf "Rust"] [] (strOf "us") (by decide),
   claim_C6.2.1 [strOf "Rust"] [] (strOf " ") (by decide)⟩

/-- Claim C7: for every query, tag index and featured list, the search
results contain no featured tag and never exceed 10 entries. -/
theorem claim_C7 (allTags featured : List Str) (query : Str) :
    ((searchBlock allTags featured query).1.all
        (fun t => !(featured.contains t)) = true) ∧
    (searchBlock allTags featured query).1.length ≤ 10 := by
  by_cases h : (trimStr query).isEmpty
  · simp [searchBlock, h]
  · rw [searchBlock]
    simp only [h, Bool.not_false, if_pos]
    refine ⟨List.all_eq_true.mpr ?_, ?_⟩
    · intro t ht
      have hmem := List.mem_of_mem_take ht
      have h2 := (List.mem_filter.mp hmem).2
      simp only [Bool.and_eq_true] at h2
      exact h2.2
    · exact List.length_take_le 10 _

/-- The browser URL as the component sees it: the value of the `tags` query
parameter (absent = `none`) and the navigation history length. -/
structure URLState where
  tagsParam : Option Str
  historyLength : Nat
deriving DecidableEq

/-- Model of `goto(url, { replaceState: true, noScroll: true })`: the current history
entry is replaced, so the history length does not grow. -/
def replaceURL (u : URLState) (p : Option Str) : URLState :=
  { tagsParam := p, historyLength := u.historyLength }

/-- The mutable bindings of the component, plus the browser URL and the due times
of pending `setTimeout` hide callbacks. -/
structure ComponentState where
  posts : List Post
  allTags : List Str
  selectedTags : List Str
  searchQuery : Str
  searchResults : List Str
  showSearchResults : Bool
  url : URLState
  pendingHides : List Nat
deriving DecidableEq

/-- Function `updateURL()`: set the `tags` parameter to the comma-joined selected tags
when some tag is selected, delete it otherwise; applied as a replace-state
navigation. -/
def updateURL (s : ComponentState) : ComponentState :=
  if s.selectedTags.length > 0 then
    { s with url := replaceURL s.url (some (joinTags s.selectedTags)) }
  else
    { s with url := replaceURL s.url none }

/-- Re-run of the search reactive block after `searchQuery` changes. -/
def recomputeSearch (s : ComponentState) : ComponentState :=
  { s with searchResults := (searchBlock s.allTags featuredTags s.searchQuery).1,
           showSearchResults := (searchBlock s.allTags featuredTags s.searchQuery).2 }

/-- Function `toggleTag(tag)`: remove the tag from `selectedTags` when present
(`filter(t => t !== tag)`), append it otherwise. No URL synchronization
happens here. -/
def toggleTag (tag : Str) (s : ComponentState) : ComponentState :=
  if s.selectedTags.contains tag then
    { s with selectedTags := s.selectedTags.filter (fun t => t != tag) }
  else
    { s with selectedTags := s.selectedTags ++ [tag] }

/-- Function `selectTagFromSearch(tag)`: clear the query, hide the panel, and when the
tag is not yet selected append it and synchronize the URL; the search
reactive block then re-runs on the now-empty query. -/
def selectTagFromSearch (tag : Str) (s : ComponentState) : ComponentState :=
  recomputeSearch
    (if s.selectedTags.contains tag then
      { s with searchQuery := [], showSearchResults := false }
     else
      updateURL { s with searchQuery := [], showSearchResults := false,
                         selectedTags := s.selectedTags ++ [tag] })

/-- Function `clearFilters()`: empty `selectedTags` and synchronize the URL. -/
def clearFilters (s : ComponentState) : ComponentState :=
  updateURL { s with selectedTags := [] }

/-- Function `handleSearchFocus()`: re-show the panel when the query is non-blank and
there are results. -/
def handleSearchFocus (s : ComponentState) : ComponentState :=
  if !(trimStr s.searchQuery).isEmpty && s.searchResults.length > 0 then
    { s with showSearchResults := true }
  else s

/-- Function `handleSearchBlur()` at time `now`: `setTimeout(() => showSearchResults =
false, 200)` — schedule a hide 200ms later; no handle is kept, so the
timeout can never be cleared. -/
def handleSearchBlur (now : Nat) (s : ComponentState) : ComponentState :=
  { s with pendingHides := s.pendingHides ++ [now + 200] }

/-- The event loop firing every scheduled hide callback due by time `t`:
each one sets `showSearchResults := false`. -/
def firePending (t : Nat) (s : ComponentState) : ComponentState :=
  if s.pendingHides.any (fun d => decide (d ≤ t)) then
    { s with showSearchResults := false,
             pendingHides := s.pendingHides.filter (fun d => decide (t < d)) }
  else
    { s with pendingHides := s.pendingHides.filter (fun d => decide (t < d)) }

/-- The user events relevant to the show/hide behaviour of the search panel. -/
inductive UIEvent where
  | searchBlur
  | searchFocus
deriving DecidableEq

/-- Deliver one timestamped event, after running every timer due by then. -/
def stepEvent (s : ComponentState) (e : Nat × UIEvent) : ComponentState :=
  match e.2 with
  | UIEvent.searchBlur => handleSearchBlur e.1 (firePending e.1 s)
  | UIEvent.searchFocus => handleSearchFocus (firePending e.1 s)

/-- Run a chronological list of timestamped events, then all timers due by
`endTime`, and observe the resulting state. -/
def runEvents (s : ComponentState) (evs : List (Nat × UIEvent)) (endTime : Nat) :
    ComponentState :=
  firePending endTime (evs.foldl stepEvent s)

/-- An idle component state on an URL without a `tags` parameter. -/
def baseState : ComponentState :=
  { posts := [], allTags := [], selectedTags := [], searchQuery := [],
    searchResults := [], showSearchResults := false,
    url := { tagsParam := none, historyLength := 1 }, pendingHides := [] }

/-- Claim C2 (code bug): `toggleTag` never rewrites the URL. In general the
URL state is untouched by `toggleTag`; concretely, toggling "Python" on the
idle state selects the tag while the URL `tags` parameter stays absent,
contradicting the documented invariant that the parameter is rewritten to
the comma-joined selection after every `toggleTag`. -/
theorem claim_C2_code_bug :
    (∀ (t : Str) (s : ComponentState), (toggleTag t s).url = s.url) ∧
    (toggleTag (strOf "Python") baseState).selectedTags = [strOf "Python"] ∧
    (toggleTag (strOf "Python") baseState).url.tagsParam ≠
      some (joinTags [strOf "Python"]) := by
  refine ⟨?_, by decide, by decide⟩
  intro t s
  rw [toggleTag]
  split <;> rfl

lemma not_mem_filter_ne (l : List Str) (t : Str) :
    t ∉ l.filter (fun x => x != t) := by
  simp

lemma filter_ne_of_not_mem (l : List Str) (t : Str) (h : t ∉ l) :
    l.filter (fun x => x != t) = l := by
  refine List.filter_eq_self.mpr ?_
  intro a ha
  simp only [bne_iff_ne, ne_eq, decide_eq_true_eq]
  intro h2
  rw [h2] at ha
  exact h ha

lemma toggleTag_selectedTags (t : Str) (s : ComponentState) :
    (toggleTag t s).selectedTags =
      if s.selectedTags.contains t then s.selectedTags.filter (fun x => x != t)
      else s.selectedTags ++ [t] := by
  rw [toggleTag]
  split <;> rfl

/-- A state with the tags "a" and "b" selected, in this order. -/
def stateAB : ComponentState :=
  { baseState with selectedTags := [strOf "a", strOf "b"] }

/-- Counterexample to C4 as stated: from SelectedTags = ["a","b"], toggling
"a" twice yields ["b","a"], not the prior value. -/
theorem claim_C4_counterexample :
    (toggleTag (strOf "a") (toggleTag (strOf "a") stateAB)).selectedTags ≠
      stateAB.selectedTags := by
  decide

/-- Claim C4 (amended): toggling a tag twice restores SelectedTags exactly
when the tag was not previously selected; when it was selected, the result
is the prior value with every copy of the tag removed and one copy appended
at the end (membership is restored, order only when the tag was last). -/
theorem claim_C4_amended (t : Str) (s : ComponentState) :
    (toggleTag t (toggleTag t s)).selectedTags =
      if s.selectedTags.contains t then
        s.selectedTags.filter (fun x => x != t) ++ [t]
      else s.selectedTags := by
  have e1 := toggleTag_selectedTags t s
  have e2 := toggleTag_selectedTags t (toggleTag t s)
  by_cases hm : t ∈ s.selectedTags
  · simp [e2, e1, hm, not_mem_filter_ne]
  · simp [e2, e1, hm, List.filter_append, filter_ne_of_not_mem _ _ hm]

/-- Claim C8: `clearFilters` always empties the selection and deletes the
URL `tags` parameter (rather than writing an empty string), with no
history growth. -/
theorem claim_C8 (s : ComponentState) :
    (clearFilters s).selectedTags = [] ∧
    (clearFilters s).url.tagsParam = none ∧
    (clearFilters s).url.historyLength = s.url.historyLength :=
  ⟨rfl, rfl, rfl⟩

lemma searchBlock_nil (allTags featured : List Str) :
    searchBlock allTags featured [] = ([], false) := rfl

/-- Claim C9: `selectTagFromSearch` always clears the query and hides the
panel; it leaves the selection and the URL untouched when the tag is already
selected, and otherwise appends the tag and rewrites the URL `tags`
parameter to the comma-joined new selection without history growth. -/
theorem claim_C9 (tag : Str) (s : ComponentState) :
    (selectTagFromSearch tag s).searchQuery = [] ∧
    (selectTagFromSearch tag s).searchResults = [] ∧
    (selectTagFromSearch tag s).showSearchResults = false ∧
    (if s.selectedTags.contains tag then
        (selectTagFromSearch tag s).selectedTags = s.selectedTags ∧
        (selectTagFromSearch tag s).url = s.url
      else
        (selectTagFromSearch tag s).selectedTags = s.selectedTags ++ [tag] ∧
        (selectTagFromSearch tag s).url.tagsParam =
          some (joinTags (s.selectedTags ++ [tag])) ∧
        (selectTagFromSearch tag s).url.historyLength = s.url.historyLength) := by
  by_cases hm : tag ∈ s.selectedTags
  · simp [selectTagFromSearch, recomputeSearch, updateURL, replaceURL, hm,
      searchBlock_nil]
  · simp [selectTagFromSearch, recomputeSearch, updateURL, replaceURL, hm,
      searchBlock_nil]

lemma handleSearchFocus_pendingHides (s : ComponentState) :
    (handleSearchFocus s).pendingHides = s.pendingHides := by
  rw [handleSearchFocus]
  split <;> rfl

lemma firePending_pendingHides (t : Nat) (s : ComponentState) :
    (firePending t s).pendingHides =
      s.pendingHides.filter (fun d => decide (t < d)) := by
  rw [firePending]
  split <;> rfl

lemma firePending_show_false (t : Nat) (s : ComponentState) (d : Nat)
    (hd : d ∈ s.pendingHides) (hle : d ≤ t) :
    (firePending t s).showSearchResults = false := by
  have hany : s.pendingHides.any (fun x => decide (x ≤ t)) = true :=
    List.any_eq_true.mpr ⟨d, hd, by simpa using hle⟩
  rw [firePending, if_pos hany]

/-- A state in mid-search: non-blank query, one result, panel shown. -/
def searchingState : ComponentState :=
  { baseState with
    allTags := [strOf "Golang"]
    searchQuery := strOf "go"
    searchResults := [strOf "Golang"]
    showSearchResults := true }

/-- Counterexample to C3 as stated: blur at time 0 schedules a hide at time
200; a focus at time 100 (non-blank query, non-empty results) re-shows the
panel, yet once the scheduled hide fires the panel is hidden at time 300 —
the pending hide does take visible effect, the focus does not cancel it. -/
theorem claim_C3_counterexample :
    (¬ (trimStr searchingState.searchQuery).isEmpty = true) ∧
    searchingState.searchResults ≠ [] ∧
    searchingState.showSearchResults = true ∧
    (runEvents searchingState
        [(0, UIEvent.searchBlur), (100, UIEvent.searchFocus)] 300).showSearchResults
      = false := by
  decide

/-- Claim C3 (amended): a blur at `t0` schedules a hide at `t0 + 200`; a
focus at any `t1` before that due time re-shows the panel but cannot cancel
the fire-and-forget timeout, so at any observation time from `t0 + 200` on
the panel is hidden — the timer wins, not the latest state. -/
theorem claim_C3_amended (s : ComponentState) (t0 t1 T : Nat)
    (h1 : t1 < t0 + 200) (hT : t0 + 200 ≤ T) :
    (runEvents s
        [(t0, UIEvent.searchBlur), (t1, UIEvent.searchFocus)] T).showSearchResults
      = false := by
  show (firePending T (handleSearchFocus (firePending t1
      (handleSearchBlur t0 (firePending t0 s))))).showSearchResults = false
  have hmem : t0 + 200 ∈ (handleSearchFocus (firePending t1
      (handleSearchBlur t0 (firePending t0 s)))).pendingHides := by
    rw [handleSearchFocus_pendingHides, firePending_pendingHides]
    refine List.mem_filter.mpr ⟨?_, by simpa using h1⟩
    simp [handleSearchBlur]
  exact firePending_show_false T _ (t0 + 200) hmem hT

/-- Witness for the amended C3 on a concrete timeline. -/
theorem claim_C3_amended_witness :
    (runEvents searchingState
        [(10, UIEvent.searchBlur), (150, UIEvent.searchFocus)] 500).showSearchResults
      = false :=
  claim_C3_amended searchingState 10 150 500 (by decide) (by decide)

/-- Witness for the amended C4 at a concrete input: toggling "b" twice from
["a","b"] restores the selection because "b" is the last element. -/
theorem claim_C4_amended_witness :
    (toggleTag (strOf "b") (toggleTag (strOf "b") stateAB)).selectedTags =
      stateAB.selectedTags := by
  have h := claim_C4_amended (strOf "b") stateAB
  rw [h]
  decide

/-- Witness for C9 at a concrete input: selecting "Golang" from search while
it is not yet selected clears the query and appends the tag. -/
theorem claim_C9_witness :
    (selectTagFromSearch (strOf "Golang") searchingState).searchQuery = [] ∧
    (selectTagFromSearch (strOf "Golang") searchingState).selectedTags =
      [strOf "Golang"] := by
  have h := claim_C9 (strOf "Golang") searchingState
  refine ⟨h.1, ?_⟩
  have h4 := h.2.2.2
  rw [if_neg (by decide)] at h4
  rw [h4.1]
  decide

end BlogIndex
